import Mathlib

/-
Verification of the column resize/reorder interaction layer of
fixed-data-table-2 against its specification.

Sources embedded directly:
  - src/src/plugins/ResizeReorder/ResizeReorderCell.js (conditional rendering
    of the resizer knob and the reorder handle);
  - src/unnamed/part_000, FixedDataTableContainer (getDerivedStateFromProps,
    the PROP_CHANGE dispatch and the height/maxHeight invariant).

The drag session tracker, the commit dispatcher and the geometry calculator
live in files not supplied with the repository snapshot (ResizerKnob.js,
ReorderHandle.js, the reducers): those parts are modelled from the
specification, as marked in their doc comments.
-/

namespace FDT

/-- Clamp a value into the interval between lo and hi (lodash clamp style:
the result is max lo (min x hi)). -/
def clamp (x lo hi : Int) : Int := max lo (min x hi)

/-- Column metadata: unique key, current width and the width bounds, as
described by the data model section of the specification and by the props of
ResizeReorderCell. -/
structure Column where
  key : Nat
  width : Int
  minWidth : Int
  maxWidth : Int
deriving Repr, DecidableEq

/-- Kind of a drag gesture: column resize or column reorder. -/
inductive DragKind where
  | resize
  | reorder
deriving Repr, DecidableEq

/-- Modelled from the spec: DragSession of the Drag Session Tracker
(ResizerKnob.js / ReorderHandle.js are not part of the supplied sources).
It records the dragged column, the gesture origin, the current displacement
and the gesture kind, and exists only while a gesture is active. -/
structure DragSession where
  column : Column
  originX : Int
  originY : Int
  currentOffset : Int
  kind : DragKind
deriving Repr, DecidableEq

/-- Modelled from the spec: the tracker is Idle or holds exactly one active
session (at most one active DragSession per table instance). -/
inductive TrackerState where
  | idle
  | active (s : DragSession)
deriving Repr, DecidableEq

/-- Error kinds of the interaction layer named by the specification. A
ConflictError signals a second beginDrag while a session is active. -/
inductive DragError where
  | conflict
deriving Repr, DecidableEq

/-- Terminal events emitted by the commit dispatcher: one
onColumnResizeEnd(newWidth, columnKey) or one onColumnReorderEnd carrying
the reordered column-key sequence. -/
inductive TerminalEvent where
  | resizeEnd (newWidth : Int) (columnKey : Nat)
  | reorderEnd (order : List Nat)
deriving Repr, DecidableEq

/-- Modelled from the spec: beginDrag(columnKey, origin, kind) starts a
session from Idle and fails with ConflictError when a session is already
active; the rejected call leaves the active session unchanged (rejected,
not queued). -/
def beginDrag : TrackerState → Column → Int × Int → DragKind →
    TrackerState × Except DragError Unit
  | .idle, c, o, k => (.active ⟨c, o.1, o.2, 0, k⟩, .ok ())
  | .active s, _, _, _ => (.active s, .error .conflict)

/-- Modelled from the spec: updateDrag(offset) recomputes currentOffset
while a session is active and is a no-op when the inputs are out of the
viewport bounds (the inBounds flag) or when no session is active. -/
def updateDrag : TrackerState → Int → Bool → TrackerState
  | .active s, off, true => .active { s with currentOffset := off }
  | st, _, _ => st

/-- Modelled from the spec: midpoint slot search of the commit dispatcher.
Walking the remaining columns left to right with running left edge, a column
is passed when the dragged position lies strictly beyond its midpoint, with
a tie at the exact midpoint broken toward the direction of travel
(movingRight). Comparisons are doubled to stay in integers. -/
def slotOfAux (x : Int) (movingRight : Bool) : Int → List Int → Nat
  | _, [] => 0
  | left, w :: ws =>
    if 2 * x > 2 * left + w ∨ (2 * x = 2 * left + w ∧ movingRight = true) then
      slotOfAux x movingRight (left + w) ws + 1
    else 0

/-- Modelled from the spec: the insertion slot for a dragged column placed at
position x among the remaining column widths, counted from left edge 0. -/
def slotOf (widths : List Int) (x : Int) (movingRight : Bool) : Nat :=
  slotOfAux x movingRight 0 widths

/-- Insert an element at a given slot of a list (appending when the slot is
past the end). -/
def insertAt : Nat → Column → List Column → List Column
  | 0, a, l => a :: l
  | _ + 1, a, [] => [a]
  | n + 1, a, b :: l => b :: insertAt n a l

/-- Split a column list around the first column carrying the given key,
returning the columns before it, the column itself and the columns after. -/
def splitByKey : Nat → List Column → Option (List Column × Column × List Column)
  | _, [] => none
  | k, c :: cs =>
    if c.key = k then some ([], c, cs)
    else
      match splitByKey k cs with
      | none => none
      | some (b, d, a) => some (c :: b, d, a)

/-- Modelled from the spec: the reorder commit. Given the current column
order, the dragged column key and the final offset, the dragged column is
removed, its new position (original left edge plus offset) is compared
against the midpoints of the remaining columns, and it is reinserted at the
nearest slot, ties broken toward the direction of travel. -/
def commitReorderOrder (cols : List Column) (k : Nat) (d : Int) : List Column :=
  match splitByKey k cols with
  | none => cols
  | some (before, dragged, after) =>
      insertAt
        (slotOf ((before ++ after).map Column.width)
          ((before.map Column.width).sum + d) (decide (0 < d)))
        dragged (before ++ after)

/-- Modelled from the spec: the commit dispatcher emits exactly one terminal
event for a completed gesture: for resize the clamped new width, for reorder
the reordered column-key sequence. -/
def commitEvents (s : DragSession) (cols : List Column) : List TerminalEvent :=
  match s.kind with
  | .resize =>
      [.resizeEnd (clamp (s.column.width + s.currentOffset)
          s.column.minWidth s.column.maxWidth) s.column.key]
  | .reorder =>
      [.reorderEnd ((commitReorderOrder cols s.column.key
          s.currentOffset).map Column.key)]

/-- Modelled from the spec: endDrag finalizes an active session, returns to
Idle and hands the last computed offset to the commit dispatcher; on Idle it
does nothing. -/
def endDrag : TrackerState → List Column → TrackerState × List TerminalEvent
  | .idle, _ => (.idle, [])
  | .active s, cols => (.idle, commitEvents s cols)

/-- Modelled from the spec: cancelDrag discards the offset without
committing and returns to Idle; no terminal callback is emitted. -/
def cancelDrag (_ : TrackerState) : TrackerState × List TerminalEvent :=
  (.idle, [])

/-- Run one complete gesture from the Idle state: beginDrag, one in-bounds
updateDrag with the final offset, then endDrag. -/
def runGesture (col : Column) (origin : Int × Int) (kind : DragKind)
    (d : Int) (cols : List Column) : TrackerState × List TerminalEvent :=
  let st1 := (beginDrag .idle col origin kind).1
  let st2 := updateDrag st1 d true
  endDrag st2 cols

/-- Operations of the tracker state machine. -/
inductive DragOp where
  | begin (c : Column) (origin : Int × Int) (kind : DragKind)
  | update (offset : Int) (inBounds : Bool)
  | finish (cols : List Column)
  | cancel
deriving Repr

/-- Step function of the tracker state machine. -/
def step (st : TrackerState) : DragOp → TrackerState
  | .begin c o k => (beginDrag st c o k).1
  | .update off b => updateDrag st off b
  | .finish cols => (endDrag st cols).1
  | .cancel => (cancelDrag st).1

/-- Number of active drag sessions held by a tracker state. -/
def activeCount : TrackerState → Nat
  | .idle => 0
  | .active _ => 1

lemma activeCount_le_one (st : TrackerState) : activeCount st ≤ 1 := by
  cases st <;> simp [activeCount]

/-- C1: a completed resize gesture (beginDrag with kind resize, final offset
d, then endDrag) emits exactly one onColumnResizeEnd whose new width is
clamp(originalWidth + d, minWidth, maxWidth); for width 100, min 50, max 200
an offset of +30 yields 130 and an offset of +150 yields the clamped 200. -/
theorem resize_commit (col : Column) (origin : Int × Int) (d : Int)
    (cols : List Column) :
    (runGesture col origin .resize d cols).2
        = [TerminalEvent.resizeEnd
            (clamp (col.width + d) col.minWidth col.maxWidth) col.key]
    ∧ (runGesture ⟨7, 100, 50, 200⟩ origin .resize 30 cols).2
        = [TerminalEvent.resizeEnd 130 7]
    ∧ (runGesture ⟨7, 100, 50, 200⟩ origin .resize 150 cols).2
        = [TerminalEvent.resizeEnd 200 7] := by
  refine ⟨rfl, ?_, ?_⟩ <;> simp [runGesture, beginDrag, updateDrag, endDrag,
    commitEvents, clamp]

/-- C2: a second beginDrag issued while a session is active always fails
with ConflictError and leaves the active session unchanged, both stated on
an arbitrary active state and on the state produced by a first beginDrag
from Idle. -/
theorem begin_drag_conflict (s : DragSession) (c1 c2 : Column)
    (o1 o2 : Int × Int) (k1 k2 : DragKind) :
    beginDrag (.active s) c2 o2 k2 = (.active s, .error .conflict)
    ∧ beginDrag ((beginDrag .idle c1 o1 k1).1) c2 o2 k2
        = ((beginDrag .idle c1 o1 k1).1, .error .conflict) :=
  ⟨rfl, rfl⟩

/-- C3: ending an active (non-cancelled) gesture emits exactly one terminal
callback, and cancelDrag emits zero terminal callbacks while returning the
tracker to Idle. -/
theorem terminal_callbacks (s : DragSession) (st : TrackerState)
    (cols : List Column) :
    (endDrag (.active s) cols).2.length = 1
    ∧ (cancelDrag st).2 = []
    ∧ (cancelDrag st).1 = .idle := by
  refine ⟨?_, rfl, rfl⟩
  cases hk : s.kind <;> simp [endDrag, commitEvents, hk]

/-- C4: the tracker is the state machine Idle to Active to Idle: every
reachable state holds at most one active session; from Idle only beginDrag
moves to Active while every other operation stays Idle; from Active the only
operations reaching Idle are endDrag and cancelDrag, while beginDrag
(rejected) and updateDrag keep the session active. -/
theorem tracker_state_machine :
    (∀ st op, activeCount (step st op) ≤ 1)
    ∧ (∀ c o k, step .idle (.begin c o k) = .active ⟨c, o.1, o.2, 0, k⟩)
    ∧ (∀ off b, step .idle (.update off b) = .idle)
    ∧ (∀ cols, step .idle (.finish cols) = .idle)
    ∧ (step .idle .cancel = .idle)
    ∧ (∀ s c o k, step (.active s) (.begin c o k) = .active s)
    ∧ (∀ s off, step (.active s) (.update off true)
        = .active { s with currentOffset := off })
    ∧ (∀ s off, step (.active s) (.update off false) = .active s)
    ∧ (∀ s cols, step (.active s) (.finish cols) = .idle)
    ∧ (∀ s, step (.active s) .cancel = .idle) := by
  refine ⟨fun st op => activeCount_le_one _, fun c o k => rfl, ?_, fun cols => rfl,
    rfl, fun s c o k => rfl, fun s off => rfl, fun s off => rfl,
    fun s cols => rfl, fun s => rfl⟩
  intro off b
  cases b <;> rfl

lemma sum_nonneg_of_pos (l : List Int) (h : ∀ w ∈ l, 0 < w) : 0 ≤ l.sum := by
  induction l with
  | nil => simp
  | cons w ws ih =>
    have hw : 0 < w := h w (by simp)
    have hws : 0 ≤ ws.sum := ih (fun v hv => h v (by simp [hv]))
    simp only [List.sum_cons]
    omega

lemma slotOfAux_exact (bw aw : List Int) (x : Int)
    (hb : ∀ w ∈ bw, 0 < w) (ha : ∀ w ∈ aw, 0 < w) :
    ∀ left : Int, x = left + bw.sum →
    slotOfAux x false left (bw ++ aw) = bw.length := by
  induction bw with
  | nil =>
    intro left hx
    simp only [List.sum_nil, add_zero] at hx
    cases aw with
    | nil => simp [slotOfAux]
    | cons w ws =>
      have hw : 0 < w := ha w (by simp)
      simp only [List.nil_append, slotOfAux, List.length_nil]
      split
      · rename_i hcond
        exfalso
        rcases hcond with h | ⟨h, hmr⟩
        · omega
        · exact absurd hmr (by decide)
      · rfl
  | cons w ws ih =>
    intro left hx
    have hw : 0 < w := hb w (by simp)
    have hws : ∀ v ∈ ws, 0 < v := fun v hv => hb v (by simp [hv])
    have hsum : 0 ≤ ws.sum := sum_nonneg_of_pos ws hws
    simp only [List.sum_cons] at hx
    simp only [List.cons_append, slotOfAux, List.length_cons]
    split
    · rename_i hcond
      simp only [List.append_eq]
      rw [ih hws (left + w) (by omega)]
    · rename_i hcond
      exact absurd (Or.inl (by omega)) hcond

lemma insertAt_length_append (b : List Column) (dr : Column) (a : List Column) :
    insertAt b.length dr (b ++ a) = b ++ dr :: a := by
  induction b with
  | nil => rfl
  | cons c cs ih => simp [insertAt, ih]

lemma splitByKey_eq_append (k : Nat) :
    ∀ (cols b : List Column) (dr : Column) (a : List Column),
    splitByKey k cols = some (b, dr, a) → cols = b ++ dr :: a := by
  intro cols
  induction cols with
  | nil => intro b dr a h; simp [splitByKey] at h
  | cons c cs ih =>
    intro b dr a h
    simp only [splitByKey] at h
    by_cases hc : c.key = k
    · rw [if_pos hc] at h
      injection h with h
      injection h with h1 h2
      injection h2 with h2 h3
      subst h1; subst h2; subst h3
      rfl
    · rw [if_neg hc] at h
      cases hs : splitByKey k cs with
      | none => rw [hs] at h; cases h
      | some t =>
        obtain ⟨b2, d2, a2⟩ := t
        rw [hs] at h
        injection h with h
        injection h with h1 h2
        injection h2 with h2 h3
        subst h1; subst h2; subst h3
        simp [ih b2 d2 a2 hs]

/-- C5: for columns A, B, C a reorder gesture on A whose final offset has
passed the midpoint of B (tie at the exact midpoint allowed since travel is
rightward) but not the midpoint of C commits exactly one onColumnReorderEnd
carrying the reordered key sequence B, A, C. -/
theorem reorder_commit_midpoint
    (wa wb wc d mna mxa mnb mxb mnc mxc ox oy : Int) (ka kb kc : Nat)
    (h1 : 0 < wb) (h2 : wb ≤ 2 * d) (h3 : 2 * d < 2 * wb + wc) :
    (endDrag (.active ⟨⟨ka, wa, mna, mxa⟩, ox, oy, d, .reorder⟩)
        [⟨ka, wa, mna, mxa⟩, ⟨kb, wb, mnb, mxb⟩, ⟨kc, wc, mnc, mxc⟩]).2
      = [TerminalEvent.reorderEnd [kb, ka, kc]] := by
  have hd0 : 0 < d := by omega
  have hmr : decide (0 < d) = true := by simpa using hd0
  have hsplit : splitByKey ka
      [⟨ka, wa, mna, mxa⟩, ⟨kb, wb, mnb, mxb⟩, ⟨kc, wc, mnc, mxc⟩]
      = some ([], ⟨ka, wa, mna, mxa⟩,
          [⟨kb, wb, mnb, mxb⟩, ⟨kc, wc, mnc, mxc⟩]) := by
    simp [splitByKey]
  simp only [endDrag, commitEvents, commitReorderOrder, hsplit, hmr,
    List.nil_append, List.map_cons, List.map_nil, List.sum_nil, zero_add]
  have hslot : slotOf [wb, wc] d true = 1 := by
    simp only [slotOf, slotOfAux]
    split
    · split
      · rename_i hcond
        exfalso
        rcases hcond with h | ⟨h, _⟩ <;> omega
      · rfl
    · rename_i hcond
      exfalso
      apply hcond
      rcases lt_or_eq_of_le h2 with h | h
      · exact Or.inl (by omega)
      · exact Or.inr ⟨by omega, trivial⟩
  rw [hslot]
  rfl

/-- C6: a reorder commit with final offset 0 (a no-op drag) leaves the
column order unchanged, for every column order with positive widths and
every dragged key. -/
theorem reorder_commit_noop (cols : List Column) (k : Nat)
    (hw : ∀ c ∈ cols, 0 < c.width) :
    commitReorderOrder cols k 0 = cols := by
  cases hs : splitByKey k cols with
  | none => simp only [commitReorderOrder, hs]
  | some t =>
    obtain ⟨b, dr, a⟩ := t
    have hcols : cols = b ++ dr :: a := splitByKey_eq_append k cols b dr a hs
    have hbpos : ∀ w ∈ b.map Column.width, 0 < w := by
      intro w hwm
      simp only [List.mem_map] at hwm
      obtain ⟨c, hc, rfl⟩ := hwm
      exact hw c (by rw [hcols]; exact List.mem_append_left _ hc)
    have hapos : ∀ w ∈ a.map Column.width, 0 < w := by
      intro w hwm
      simp only [List.mem_map] at hwm
      obtain ⟨c, hc, rfl⟩ := hwm
      exact hw c (by rw [hcols]; exact List.mem_append_right _ (by simp [hc]))
    have hslot : slotOf ((b ++ a).map Column.width)
        ((b.map Column.width).sum + 0) (decide ((0 : Int) < 0)) = b.length := by
      have hd : decide ((0 : Int) < 0) = false := by decide
      rw [hd, slotOf, List.map_append]
      have := slotOfAux_exact (b.map Column.width) (a.map Column.width)
        ((b.map Column.width).sum + 0) hbpos hapos 0 (by omega)
      simpa [List.length_map] using this
    simp only [commitReorderOrder, hs]
    rw [hslot, insertAt_length_append, ← hcols]

/-- Witness for C5: dragging column 0 (width 100) by offset 60 past the
midpoint of column 1 commits the key order 1, 0, 2. -/
theorem reorder_commit_midpoint_witness :
    (endDrag (.active ⟨⟨0, 100, 0, 300⟩, 0, 0, 60, .reorder⟩)
        [⟨0, 100, 0, 300⟩, ⟨1, 100, 0, 300⟩, ⟨2, 100, 0, 300⟩]).2
      = [TerminalEvent.reorderEnd [1, 0, 2]] :=
  reorder_commit_midpoint 100 100 100 60 0 300 0 300 0 300 0 0 0 1 2
    (by norm_num) (by norm_num) (by norm_num)

/-- Witness for C6: a no-op drag of column 0 over a concrete two-column
order returns the order unchanged. -/
theorem reorder_commit_noop_witness :
    commitReorderOrder [⟨0, 100, 0, 200⟩, ⟨1, 50, 0, 99⟩] 0 0
      = [⟨0, 100, 0, 200⟩, ⟨1, 50, 0, 99⟩] :=
  reorder_commit_noop [⟨0, 100, 0, 200⟩, ⟨1, 50, 0, 99⟩] 0 (by decide)

/-- Bounding rectangle of the table: left edge and width. -/
structure Rect where
  left : Int
  width : Int
deriving Repr, DecidableEq

/-- Modelled from the spec: raw pointer offset of the Geometry/Offset
Calculator relative to the table content origin, before clamping; under the
mirrored-direction flag the offset is measured from the opposite edge of the
bounding rect (no corresponding source file is supplied). -/
def rawOffset (clientX : Int) (rect : Rect) (scrollX : Int) (isRTL : Bool) : Int :=
  if isRTL then rect.left + rect.width - clientX + scrollX
  else clientX - rect.left + scrollX

/-- Modelled from the spec: output of the Geometry/Offset Calculator, the
raw offset clamped to the interval from 0 to totalScrollWidth. -/
def computeOffset (clientX : Int) (rect : Rect) (scrollX : Int)
    (totalScrollWidth : Int) (isRTL : Bool) : Int :=
  clamp (rawOffset clientX rect scrollX isRTL) 0 totalScrollWidth

lemma clamp_mem (x lo hi : Int) (h : lo ≤ hi) :
    lo ≤ clamp x lo hi ∧ clamp x lo hi ≤ hi := by
  unfold clamp
  constructor
  · exact le_max_left lo _
  · exact max_le h (min_le_right x hi)

lemma clamp_of_mem (x lo hi : Int) (h1 : lo ≤ x) (h2 : x ≤ hi) :
    clamp x lo hi = x := by
  unfold clamp
  rw [min_eq_left h2, max_eq_right h1]

/-- C7: the Geometry/Offset Calculator is a pure function whose output is
clamped to the interval from 0 to totalScrollWidth, and the mirrored
(RTL) offset is the inversion of the left-to-right offset relative to the
table content origin: the two raw offsets always sum to the rect width plus
twice the scroll position, and the clamped outputs satisfy the same
inversion whenever both raw offsets lie in the clamp interval. -/
theorem compute_offset_spec (clientX scrollX total : Int) (rect : Rect)
    (b : Bool) (ht : 0 ≤ total) :
    (0 ≤ computeOffset clientX rect scrollX total b
      ∧ computeOffset clientX rect scrollX total b ≤ total)
    ∧ rawOffset clientX rect scrollX true + rawOffset clientX rect scrollX false
        = rect.width + 2 * scrollX
    ∧ (0 ≤ rawOffset clientX rect scrollX true →
        rawOffset clientX rect scrollX true ≤ total →
        0 ≤ rawOffset clientX rect scrollX false →
        rawOffset clientX rect scrollX false ≤ total →
        computeOffset clientX rect scrollX total true
          = rect.width + 2 * scrollX - computeOffset clientX rect scrollX total false) := by
  refine ⟨clamp_mem _ 0 total ht, ?_, ?_⟩
  · simp only [rawOffset]
    norm_num
    omega
  · intro h1 h2 h3 h4
    unfold computeOffset
    rw [clamp_of_mem _ 0 total h1 h2, clamp_of_mem _ 0 total h3 h4]
    simp only [rawOffset]
    norm_num
    omega

/-- Witness for C7: with a rect of width 100 at left edge 0, pointer at 10
and no scroll, the RTL offset 90 is the inversion of the LTR offset 10, and
both clamped outputs are in bounds. -/
theorem compute_offset_spec_witness :
    computeOffset 10 ⟨0, 100⟩ 0 100 true
      = (⟨0, 100⟩ : Rect).width + 2 * 0 - computeOffset 10 ⟨0, 100⟩ 0 100 false :=
  (compute_offset_spec 10 0 100 ⟨0, 100⟩ true (by norm_num)).2.2
    (by decide) (by decide) (by decide) (by decide)

/-- Props of FixedDataTableContainer relevant to getDerivedStateFromProps:
the JS object identity (ref models reference equality of props objects) and
the height/maxHeight settings checked by the invariant. -/
structure FDTProps where
  ref : Nat
  height : Option Int
  maxHeight : Option Int
deriving Repr, DecidableEq

/-- Actions dispatched to the redux store by FixedDataTableContainer; the
source names are INITIALIZE and PROP_CHANGE (ActionTypes). PROP_CHANGE
carries the new props and the reference of the old props. -/
inductive FDTAction where
  | initAction (props : FDTProps)
  | propChange (newProps : FDTProps) (oldPropsRef : Nat)
deriving Repr, DecidableEq

/-- State of the container: the redux store state and the bound-state
snapshot picked from the store at the last synchronization (the pick of
getBoundState is modelled as the full store state). -/
structure ContainerState (σ : Type) where
  storeState : σ
  boundSnapshot : σ
deriving Repr, DecidableEq

/-- Embedding of FixedDataTableContainer.getDerivedStateFromProps. The
reducer and the propsReference projection of the store are parameters since
the reducers are not part of the supplied sources. The invariant failure
(neither height nor maxHeight set) is an exception thrown to the caller,
modelled by the error branch. Returning ok with an empty action list and
none models the null return: nothing dispatched, no state change. -/
def getDerivedStateFromProps (σ : Type) (reducer : σ → FDTAction → σ)
    (propsRefOf : σ → Nat) (nextProps : FDTProps) (cs : ContainerState σ) :
    Except String (List FDTAction × Option (ContainerState σ)) :=
  if nextProps.height = none ∧ nextProps.maxHeight = none then
    .error "You must set either a height or a maxHeight"
  else if nextProps.ref = propsRefOf cs.boundSnapshot then
    .ok ([], none)
  else
    .ok ([.propChange nextProps (propsRefOf cs.boundSnapshot)],
      some ⟨[FDTAction.propChange nextProps (propsRefOf cs.boundSnapshot)].foldl
              reducer cs.storeState,
            [FDTAction.propChange nextProps (propsRefOf cs.boundSnapshot)].foldl
              reducer cs.storeState⟩)

/-- Actions dispatched to the store by one getDerivedStateFromProps call. -/
def dispatchedActions (σ : Type) (reducer : σ → FDTAction → σ)
    (propsRefOf : σ → Nat) (nextProps : FDTProps) (cs : ContainerState σ) :
    List FDTAction :=
  match getDerivedStateFromProps σ reducer propsRefOf nextProps cs with
  | .error _ => []
  | .ok (acts, _) => acts

/-- Container state after one getDerivedStateFromProps call: a null return
keeps the current state, a partial-state return replaces it. -/
def applyDerived (σ : Type) (reducer : σ → FDTAction → σ)
    (propsRefOf : σ → Nat) (nextProps : FDTProps) (cs : ContainerState σ) :
    Except String (ContainerState σ) :=
  match getDerivedStateFromProps σ reducer propsRefOf nextProps cs with
  | .error e => .error e
  | .ok (_, none) => .ok cs
  | .ok (_, some cs2) => .ok cs2

/-- C8: under the height/maxHeight invariant, a PROP_CHANGE action is
dispatched if and only if the incoming props reference differs from the
props reference recorded in the current bound state; when the props are
unchanged getDerivedStateFromProps returns null (no action, no partial
state) and the container state, store state included, is left unchanged,
for every reducer. -/
theorem prop_change_iff (σ : Type) (reducer : σ → FDTAction → σ)
    (propsRefOf : σ → Nat) (nextProps : FDTProps) (cs : ContainerState σ)
    (hinv : ¬(nextProps.height = none ∧ nextProps.maxHeight = none)) :
    (dispatchedActions σ reducer propsRefOf nextProps cs ≠ []
      ↔ nextProps.ref ≠ propsRefOf cs.boundSnapshot)
    ∧ (nextProps.ref = propsRefOf cs.boundSnapshot →
        getDerivedStateFromProps σ reducer propsRefOf nextProps cs = .ok ([], none)
        ∧ applyDerived σ reducer propsRefOf nextProps cs = .ok cs)
    ∧ (nextProps.ref ≠ propsRefOf cs.boundSnapshot →
        dispatchedActions σ reducer propsRefOf nextProps cs
          = [.propChange nextProps (propsRefOf cs.boundSnapshot)]) := by
  by_cases he : nextProps.ref = propsRefOf cs.boundSnapshot
  · refine ⟨?_, fun _ => ⟨?_, ?_⟩, fun hne => absurd he hne⟩ <;>
      simp [dispatchedActions, applyDerived, getDerivedStateFromProps, hinv, he]
  · refine ⟨?_, fun heq => absurd heq he, fun _ => ?_⟩ <;>
      simp [dispatchedActions, getDerivedStateFromProps, hinv, he]

/-- Witness for C8: with a one-field store and identical props reference,
getDerivedStateFromProps returns null and the container state is kept. -/
theorem prop_change_iff_witness :
    getDerivedStateFromProps Nat (fun s _ => s + 1) (fun s => s)
        ⟨0, some 1, none⟩ ⟨0, 0⟩ = .ok ([], none)
    ∧ applyDerived Nat (fun s _ => s + 1) (fun s => s)
        ⟨0, some 1, none⟩ ⟨0, 0⟩ = .ok ⟨0, 0⟩ :=
  (prop_change_iff Nat (fun s _ => s + 1) (fun s => s)
    ⟨0, some 1, none⟩ ⟨0, 0⟩ (by simp)).2.1 rfl

/-- C9 counterexample: a props update with neither height nor maxHeight set
makes getDerivedStateFromProps throw the invariant exception to the caller,
so not every error of the layer is handled locally. -/
theorem error_propagates_counterexample :
    getDerivedStateFromProps Nat (fun s _ => s) (fun s => s)
        ⟨5, none, none⟩ ⟨0, 0⟩
      = .error "You must set either a height or a maxHeight" := rfl

/-- C9 amended: drag-gesture errors are handled locally, a conflicting
beginDrag being rejected with the active session kept and an out-of-bounds
value being clamped into its interval, and getDerivedStateFromProps throws
an exception exactly when neither height nor maxHeight is provided. -/
theorem errors_handled_except_invariant :
    (∀ s c o k, beginDrag (.active s) c o k = (.active s, .error .conflict))
    ∧ (∀ x lo hi : Int, lo ≤ hi → lo ≤ clamp x lo hi ∧ clamp x lo hi ≤ hi)
    ∧ (∀ (σ : Type) (reducer : σ → FDTAction → σ) (propsRefOf : σ → Nat)
        (p : FDTProps) (cs : ContainerState σ),
        (∃ e, getDerivedStateFromProps σ reducer propsRefOf p cs = .error e)
          ↔ (p.height = none ∧ p.maxHeight = none)) := by
  refine ⟨fun s c o k => rfl, fun x lo hi h => clamp_mem x lo hi h, ?_⟩
  intro σ reducer propsRefOf p cs
  constructor
  · intro ⟨e, he⟩
    by_contra hno
    rw [getDerivedStateFromProps, if_neg hno] at he
    by_cases hr : p.ref = propsRefOf cs.boundSnapshot
    · rw [if_pos hr] at he; cases he
    · rw [if_neg hr] at he; cases he
  · intro hboth
    exact ⟨_, by rw [getDerivedStateFromProps, if_pos hboth]⟩

/-- Witness for C9 amended: a width of 250 clamped into the interval from
50 to 200 stays inside the interval. -/
theorem errors_handled_except_invariant_witness :
    (50 : Int) ≤ clamp 250 50 200 ∧ clamp 250 50 200 ≤ 200 :=
  errors_handled_except_invariant.2.1 250 50 200 (by norm_num)

/-- Props of ResizeReorderCell relevant to the conditional rendering: the JS
truthiness of the two callback props (a provided function is truthy, an
absent prop is falsy). -/
structure CellProps where
  hasOnColumnResizeEnd : Bool
  hasOnColumnReorderEnd : Bool
deriving Repr, DecidableEq

/-- Render tree of ResizeReorderCell, kept to the shapes the component can
produce: the cell content, the resizer knob, the reorder handle wrapping a
re-rendered node, a null child, a pair of siblings, and the div or fragment
wrappers of the two return branches. -/
inductive Node where
  | contentNode
  | resizerKnob
  | emptyNode
  | reorderHandle (inner : Node)
  | pair (fst snd : Node)
  | divWrap (inner : Node)
  | fragWrap (inner : Node)
deriving Repr, DecidableEq

/-- Embedding of ResizeReorderCell.renderReorderHandle: null unless the
onColumnReorderEnd prop is provided, otherwise a ReorderHandle whose render
prop wraps the cell content next to the handle. -/
def renderReorderHandle (p : CellProps) : Node :=
  if p.hasOnColumnReorderEnd then .reorderHandle .contentNode else .emptyNode

/-- Embedding of ResizeReorderCell.renderResizerKnob: null unless the
onColumnResizeEnd prop is provided. -/
def renderResizerKnob (p : CellProps) : Node :=
  if p.hasOnColumnResizeEnd then .resizerKnob else .emptyNode

/-- Embedding of ResizeReorderCell.render: when onColumnReorderEnd is
provided, a fragment holding the reorder handle (which carries the content)
and the resizer knob; otherwise a div holding the resizer knob and the
content. -/
def render (p : CellProps) : Node :=
  if p.hasOnColumnReorderEnd then
    .fragWrap (.pair (renderReorderHandle p) (renderResizerKnob p))
  else
    .divWrap (.pair (renderResizerKnob p) .contentNode)

/-- Whether a rendered tree contains a reorder handle. -/
def containsReorder : Node → Bool
  | .reorderHandle _ => true
  | .pair a b => containsReorder a || containsReorder b
  | .divWrap a => containsReorder a
  | .fragWrap a => containsReorder a
  | _ => false

/-- Whether a rendered tree contains a resizer knob. -/
def containsResizer : Node → Bool
  | .resizerKnob => true
  | .reorderHandle a => containsResizer a
  | .pair a b => containsResizer a || containsResizer b
  | .divWrap a => containsResizer a
  | .fragWrap a => containsResizer a
  | _ => false

/-- Whether a rendered tree contains the cell content. -/
def containsContent : Node → Bool
  | .contentNode => true
  | .reorderHandle a => containsContent a
  | .pair a b => containsContent a || containsContent b
  | .divWrap a => containsContent a
  | .fragWrap a => containsContent a
  | _ => false

/-- C10: the rendered cell contains the reorder handle exactly when the
onColumnReorderEnd prop is provided and the resizer knob exactly when the
onColumnResizeEnd prop is provided; the content is always rendered, and
with neither callback the output is a plain div holding only the content
next to a null child. -/
theorem render_affordances (p : CellProps) :
    containsReorder (render p) = p.hasOnColumnReorderEnd
    ∧ containsResizer (render p) = p.hasOnColumnResizeEnd
    ∧ containsContent (render p) = true
    ∧ render ⟨false, false⟩ = .divWrap (.pair .emptyNode .contentNode) := by
  obtain ⟨r, m⟩ := p
  cases r <;> cases m <;> exact ⟨rfl, rfl, rfl, rfl⟩

end FDT
